import Mathlib

/-!
Verification of the redirect.name server against its specification: the
TXT-record redirect resolver, the certificate admission gate and the
rate-limited certificate store are embedded shallowly from `server.go`;
the rule parser and matcher/translator module, which is referenced by the
server but whose file is not among the sources, is modelled from the
specification text (sections 4.1 and 4.2).
-/

/-- Go strings are modelled as lists of characters. -/
abbrev Str := List Char

/-- Go strings.Split with a one-character separator: splits around every
occurrence of the separator; the result is never empty. -/
def goSplitChar (sep : Char) : Str → List Str
  | [] => [[]]
  | c :: rest =>
    if c = sep then [] :: goSplitChar sep rest
    else
      match goSplitChar sep rest with
      | [] => [[c]]
      | s :: ss => (c :: s) :: ss

/-- Go strings.HasSuffix. -/
def hasSuffix (s suffix : Str) : Bool := suffix.isSuffixOf s

/-- Go strings.TrimSuffix. -/
def trimSuffix (s suffix : Str) : Str :=
  if hasSuffix s suffix then s.take (s.length - suffix.length) else s

/-- Modelled from the spec: the parsed form of one TXT record (section 3);
the rule-parser module that declares it is not among the given sources.
`From = []` means the rule is a catch-all. -/
structure Config where
  From : Str
  To : Str
  Status : Nat
deriving Repr, DecidableEq

/-- A redirect decision: destination location and HTTP status code. -/
structure Redirect where
  Location : Str
  Status : Nat
deriving Repr, DecidableEq

/-- Modelled from the spec: the numeric status token of a `with <code>`
clause (section 4.1); part of the missing rule-parser module. -/
def parseCode (s : Str) : Option Nat :=
  if s ≠ [] ∧ s.all Char.isDigit then
    some (s.foldl (fun n c => n * 10 + (c.toNat - 48)) 0)
  else none

/-- Modelled from the spec: a pattern may contain at most one wildcard
marker, and only as its final character (section 3 invariant); part of the
missing rule-parser module. -/
def wildcardOK (p : Str) : Bool :=
  p.count '*' == 0 || (p.count '*' == 1 && hasSuffix p ['*'])

/-- Modelled from the spec: builds a rule from its parts, rejecting a
missing target and any violation of the wildcard-placement invariant (a
source pattern with a wildcard needs a wildcard-terminated target); part of
the missing rule-parser module. -/
def mkConfig (f t : Str) (s : Nat) : Option Config :=
  if t = [] then none
  else if wildcardOK f && wildcardOK t &&
      (decide (f.count '*' = 0) || hasSuffix t ['*']) then
    some ⟨f, t, s⟩
  else none

/-- Modelled from the spec: the token forms accepted after the leading
`Redirects [permanently]` keywords (section 4.1); part of the missing
rule-parser module. `base` is 301 when `permanently` was present, else 302;
a trailing `with <code>` clause overrides it. -/
def parseTail (base : Nat) : List Str → Option Config
  | [t, target] =>
    if t = "to".toList then mkConfig [] target base else none
  | [a, b, c, d] =>
    if a = "to".toList ∧ c = "with".toList then
      (parseCode d).bind fun s => mkConfig [] b s
    else if a = "from".toList ∧ c = "to".toList then
      mkConfig b d base
    else none
  | [f, p, t, target, w, code] =>
    if f = "from".toList ∧ t = "to".toList ∧ w = "with".toList then
      (parseCode code).bind fun s => mkConfig p target s
    else none
  | _ => none

/-- Modelled from the spec: the rule parser for one TXT record (section
4.1); the parser module itself is not among the given sources. Keywords are
case-sensitive; records not matching the grammar yield `none`. -/
def Parse (record : Str) : Option Config :=
  match goSplitChar ' ' record with
  | [] => none
  | r :: rest =>
    if r = "Redirects".toList then
      match rest with
      | [] => none
      | p :: rest2 =>
        if p = "permanently".toList then parseTail 301 rest2
        else parseTail 302 (p :: rest2)
    else none

/-- Modelled from the spec: the rule matcher/translator (section 4.2); the
module is not among the given sources. A catch-all matches every path; a
wildcard-free pattern matches exactly; a pattern ending in a wildcard
matches by a plain character-level test against the literal part before the
wildcard, and the matched remainder of the path is appended to the target
in place of its trailing wildcard. -/
def Translate (path : Str) (config : Config) : Option Redirect :=
  if config.From = [] then some ⟨config.To, config.Status⟩
  else if hasSuffix config.From ['*'] then
    let pre := trimSuffix config.From ['*']
    if pre.isPrefixOf path then
      some ⟨trimSuffix config.To ['*'] ++ path.drop pre.length, config.Status⟩
    else none
  else if path = config.From then some ⟨config.To, config.Status⟩
  else none

/-- The error message getRedirect returns when nothing matched. -/
def noMatchMsg : Str := "No paths matched".toList

/-- Second loop of getRedirect in server.go: the deferred catch-all rules
are tried in the order they were encountered. The translate function is a
parameter so the resolver's control flow is settled independently of the
rule module. -/
def tryCatchAlls (translate : Str → Config → Option Redirect) (url : Str) :
    List Config → Except Str Redirect
  | [] => .error noMatchMsg
  | c :: rest =>
    match translate url c with
    | some r => .ok r
    | none => tryCatchAlls translate url rest

/-- First loop of getRedirect in server.go: records are scanned in DNS
response order, unparseable records are skipped, catch-all rules are
appended to an accumulator, and a scoped rule that translates the path
returns immediately. -/
def getRedirectLoop (parse : Str → Option Config)
    (translate : Str → Config → Option Redirect) (url : Str) :
    List Str → List Config → Except Str Redirect
  | [], catchAlls => tryCatchAlls translate url catchAlls
  | record :: rest, catchAlls =>
    match parse record with
    | none => getRedirectLoop parse translate url rest catchAlls
    | some config =>
      if config.From = [] then
        getRedirectLoop parse translate url rest (catchAlls ++ [config])
      else
        match translate url config with
        | some redirect => .ok redirect
        | none => getRedirectLoop parse translate url rest catchAlls

/-- getRedirect from server.go with the rule module as parameters. -/
def getRedirectWith (parse : Str → Option Config)
    (translate : Str → Config → Option Redirect)
    (txt : List Str) (url : Str) : Except Str Redirect :=
  getRedirectLoop parse translate url txt []

/-- getRedirect from server.go, instantiated with the spec-modelled rule
module. -/
def getRedirect (txt : List Str) (url : Str) : Except Str Redirect :=
  getRedirectWith Parse Translate txt url

/-- Follows the specification text of section 4.3: the scoped translation
attempt for one record, `none` when the record is unparseable or the rule
is a catch-all. -/
def scopedTry (parse : Str → Option Config)
    (translate : Str → Config → Option Redirect) (url : Str)
    (record : Str) : Option Redirect :=
  match parse record with
  | some c => if c.From = [] then none else translate url c
  | none => none

/-- Follows the specification text of section 4.3: the catch-all rules of a
record sequence, in encounter order. -/
def catchConfigs (parse : Str → Option Config) (txt : List Str) :
    List Config :=
  txt.filterMap fun record =>
    match parse record with
    | some c => if c.From = [] then some c else none
    | none => none

/-- Follows the specification text of section 4.3: the first scoped success
in record order wins; otherwise the first catch-all success in encounter
order; otherwise the no-match failure. -/
def resolveSpec (parse : Str → Option Config)
    (translate : Str → Config → Option Redirect)
    (txt : List Str) (url : Str) : Except Str Redirect :=
  match txt.findSome? (scopedTry parse translate url) with
  | some r => .ok r
  | none =>
    match (catchConfigs parse txt).findSome? (translate url) with
    | some r => .ok r
    | none => .error noMatchMsg

example : Parse "Redirects from /test/* to https://github.com/holic/*".toList =
    some ⟨"/test/*".toList, "https://github.com/holic/*".toList, 302⟩ := by decide

example : Parse "Redirects permanently to https://example.com/".toList =
    some ⟨[], "https://example.com/".toList, 301⟩ := by decide

example : Parse "Redirects to https://example.com/ with 308".toList =
    some ⟨[], "https://example.com/".toList, 308⟩ := by decide

example : Parse "v=spf1 include:example.com ~all".toList = none := by decide

example : getRedirect ["Redirects from /test/* to https://github.com/holic/*".toList]
    "/test/success".toList =
    Except.ok ⟨"https://github.com/holic/success".toList, 302⟩ := by rfl

lemma tryCatchAlls_eq (translate : Str → Config → Option Redirect)
    (url : Str) (acc : List Config) :
    tryCatchAlls translate url acc =
      match acc.findSome? (translate url) with
      | some r => .ok r
      | none => .error noMatchMsg := by
  induction acc with
  | nil => rfl
  | cons c rest ih =>
    simp only [tryCatchAlls, List.findSome?_cons]
    cases translate url c <;> simp [ih]

lemma getRedirectLoop_eq (parse : Str → Option Config)
    (translate : Str → Config → Option Redirect) (url : Str)
    (txt : List Str) :
    ∀ acc : List Config,
    getRedirectLoop parse translate url txt acc =
      match txt.findSome? (scopedTry parse translate url) with
      | some r => .ok r
      | none =>
        match (acc ++ catchConfigs parse txt).findSome? (translate url) with
        | some r => .ok r
        | none => .error noMatchMsg := by
  induction txt with
  | nil =>
    intro acc
    simp [getRedirectLoop, tryCatchAlls_eq, catchConfigs]
  | cons record rest ih =>
    intro acc
    cases hp : parse record with
    | none =>
      simp [getRedirectLoop, scopedTry, catchConfigs, hp,
        List.findSome?_cons, List.filterMap_cons, ih acc]
    | some config =>
      by_cases hf : config.From = []
      · simp [getRedirectLoop, scopedTry, catchConfigs, hp, hf,
          List.findSome?_cons, List.filterMap_cons, ih (acc ++ [config]),
          List.append_assoc]
      · cases ht : translate url config with
        | some r =>
          simp [getRedirectLoop, scopedTry, hp, hf, ht, List.findSome?_cons]
        | none =>
          simp [getRedirectLoop, scopedTry, catchConfigs, hp, hf, ht,
            List.findSome?_cons, List.filterMap_cons, ih acc]

lemma getRedirect_eq_resolveSpec (txt : List Str) (url : Str) :
    getRedirect txt url = resolveSpec Parse Translate txt url := by
  simpa [getRedirect, getRedirectWith, resolveSpec] using
    getRedirectLoop_eq Parse Translate url txt []

/-- C1: getRedirect returns the first successful scoped translation in
record order, and only after every record has been processed without a
scoped match does it try the deferred catch-all rules in encounter order
(this is exactly `resolveSpec`, the specification's resolution order);
consequently a path matching any scoped rule never resolves to a catch-all
rule's destination: the result is then a scoped rule's own translation. -/
theorem getRedirect_precedence (txt : List Str) (url : Str) :
    getRedirect txt url = resolveSpec Parse Translate txt url ∧
    ((∃ record ∈ txt, (scopedTry Parse Translate url record).isSome) →
      ∃ record ∈ txt, ∃ r, scopedTry Parse Translate url record = some r ∧
        getRedirect txt url = Except.ok r) := by
  refine ⟨getRedirect_eq_resolveSpec txt url, fun hex => ?_⟩
  obtain ⟨record, hmem, hsome⟩ := hex
  have h1 : (txt.findSome? (scopedTry Parse Translate url)).isSome := by
    rcases Option.isSome_iff_exists.mp hsome with ⟨r, hr⟩
    cases hfind : txt.findSome? (scopedTry Parse Translate url) with
    | some r0 => rfl
    | none =>
      rw [List.findSome?_eq_none_iff] at hfind
      exact absurd (hfind record hmem) (by simp [hr])
  rcases Option.isSome_iff_exists.mp h1 with ⟨r0, hr0⟩
  rcases List.exists_of_findSome?_eq_some hr0 with ⟨rec0, hmem0, hs0⟩
  refine ⟨rec0, hmem0, r0, hs0, ?_⟩
  rw [getRedirect_eq_resolveSpec, resolveSpec, hr0]

/-- C1 witness: a concrete interleaving of a catch-all followed by a scoped
rule; the path matches the scoped rule and the resolver returns the scoped
rule's translation, not the catch-all's destination. -/
theorem getRedirect_precedence_witness :
    (∃ record ∈ ["Redirects to https://fallback.example/".toList,
        "Redirects from /a/* to https://scoped.example/*".toList],
      (scopedTry Parse Translate "/a/x".toList record).isSome) ∧
    (∃ record ∈ ["Redirects to https://fallback.example/".toList,
        "Redirects from /a/* to https://scoped.example/*".toList],
      ∃ r, scopedTry Parse Translate "/a/x".toList record = some r ∧
        getRedirect ["Redirects to https://fallback.example/".toList,
          "Redirects from /a/* to https://scoped.example/*".toList]
          "/a/x".toList = Except.ok r) :=
  ⟨⟨"Redirects from /a/* to https://scoped.example/*".toList,
      by simp, by decide⟩,
    (getRedirect_precedence
      ["Redirects to https://fallback.example/".toList,
        "Redirects from /a/* to https://scoped.example/*".toList]
      "/a/x".toList).2
      ⟨"Redirects from /a/* to https://scoped.example/*".toList,
        by simp, by decide⟩⟩

/-- C8: getRedirect fails exactly when no record parses into a rule that
translates the path (including the case where every record is unparseable
and the case of an empty record sequence), the failure is always the
distinguishable no-match error, and no redirect decision is constructed
for it. -/
theorem getRedirect_noMatch (txt : List Str) (url : Str) :
    (getRedirect txt url = Except.error noMatchMsg ↔
      ∀ record ∈ txt, ∀ c, Parse record = some c → Translate url c = none) ∧
    ∀ e, getRedirect txt url = Except.error e → e = noMatchMsg := by
  rw [getRedirect_eq_resolveSpec, resolveSpec]
  cases h1 : txt.findSome? (scopedTry Parse Translate url) with
  | some r =>
    rcases List.exists_of_findSome?_eq_some h1 with ⟨record, hmem, hs⟩
    constructor
    · constructor
      · intro h; exact absurd h (by simp)
      · intro hall
        exfalso
        revert hs
        unfold scopedTry
        cases hp : Parse record with
        | none => simp
        | some c =>
          by_cases hf : c.From = []
          · simp [hf]
          · simp [hf, hall record hmem c hp]
    · intro e he; exact absurd he (by simp)
  | none =>
    cases h2 : (catchConfigs Parse txt).findSome? (Translate url) with
    | some r =>
      rcases List.exists_of_findSome?_eq_some h2 with ⟨c, hcmem, ht⟩
      rcases List.mem_filterMap.mp hcmem with ⟨record, hmem, hpc⟩
      have hp : Parse record = some c ∧ c.From = [] := by
        cases hq : Parse record with
        | none => rw [hq] at hpc; simp at hpc
        | some c0 =>
          rw [hq] at hpc
          by_cases hf : c0.From = []
          · simp only [hf, if_true, Option.some.injEq] at hpc
            subst hpc
            exact ⟨rfl, hf⟩
          · simp [hf] at hpc
      constructor
      · constructor
        · intro h; exact absurd h (by simp)
        · intro hall
          exact absurd ht (by simp [hall record hmem c hp.1])
      · intro e he; exact absurd he (by simp)
    | none =>
      constructor
      · constructor
        · intro _ record hmem c hp
          by_cases hf : c.From = []
          · have hcmem : c ∈ catchConfigs Parse txt :=
              List.mem_filterMap.mpr ⟨record, hmem, by simp [hp, hf]⟩
            exact (List.findSome?_eq_none_iff.mp h2) c hcmem
          · have h3 := (List.findSome?_eq_none_iff.mp h1) record hmem
            revert h3
            simp [scopedTry, hp, hf]
        · intro _; rfl
      · intro e he
        simpa using he.symm

/-- C8 witness: a record sequence holding only an SPF record yields the
no-match error on any path, for instance the root path. -/
theorem getRedirect_noMatch_witness :
    getRedirect ["v=spf1 include:example.com ~all".toList] "/".toList =
      Except.error noMatchMsg :=
  (getRedirect_noMatch ["v=spf1 include:example.com ~all".toList]
    "/".toList).1.mpr (by decide)

lemma trimSuffix_append (l t : Str) : trimSuffix (l ++ t) t = l := by
  unfold trimSuffix hasSuffix
  rw [if_pos (List.isSuffixOf_iff_suffix.mpr (List.suffix_append l t))]
  simp [List.length_append, Nat.add_sub_cancel, List.take_left]

/-- C3: for every path extending the literal part of a wildcard rule
(source pattern `pre ++ "*"`, target `base ++ "*"`), Translate matches by a
plain character-level test and produces the target's literal part followed
by the remainder of the path, with the rule's status code; no such path is
ever refused by that rule. -/
theorem translate_wildcard (pre base tail : Str) (status : Nat) :
    Translate (pre ++ tail) ⟨pre ++ ['*'], base ++ ['*'], status⟩ =
      some ⟨base ++ tail, status⟩ := by
  have h1 : ¬(pre ++ ['*'] = ([] : Str)) := by simp
  have h2 : hasSuffix (pre ++ ['*']) ['*'] = true :=
    List.isSuffixOf_iff_suffix.mpr (List.suffix_append pre ['*'])
  have h4 : pre.isPrefixOf (pre ++ tail) = true :=
    List.isPrefixOf_iff_prefix.mpr (List.prefix_append pre tail)
  simp [Translate, h1, h2, trimSuffix_append, h4, List.drop_left]

/-- An uppercase hexadecimal digit, as Go net/url emits in percent escapes. -/
def hexUpper (n : Nat) : Char :=
  if n < 10 then Char.ofNat (48 + n) else Char.ofNat (55 + n)

/-- Go url.shouldEscape for the query component: ASCII letters, digits and
`-`, `_`, `.`, `~` stay unescaped. -/
def isUnreservedByte (b : Nat) : Bool :=
  (65 ≤ b && b ≤ 90) || (97 ≤ b && b ≤ 122) || (48 ≤ b && b ≤ 57) ||
    b == 45 || b == 95 || b == 46 || b == 126

/-- Go url.QueryEscape on one byte: a space becomes `+`, an unreserved byte
stays itself, anything else becomes a percent escape with uppercase hex. -/
def escapeByte (b : Nat) : Str :=
  if b == 32 then ['+']
  else if isUnreservedByte b then [Char.ofNat b]
  else ['%', hexUpper (b / 16), hexUpper (b % 16)]

/-- UTF-8 encoding of one character as its byte values; Go strings are byte
strings, so escaping works on these bytes. -/
def utf8Bytes (c : Char) : List Nat :=
  let n := c.toNat
  if n < 128 then [n]
  else if n < 2048 then [192 + n / 64, 128 + n % 64]
  else if n < 65536 then [224 + n / 4096, 128 + (n / 64) % 64, 128 + n % 64]
  else [240 + n / 262144, 128 + (n / 4096) % 64, 128 + (n / 64) % 64,
    128 + n % 64]

/-- Go url.QueryEscape: every byte of the UTF-8 form is escaped
independently. -/
def queryEscape (s : Str) : Str :=
  s.flatMap fun c => (utf8Bytes c).flatMap escapeByte

/-- The default fallback destination used when FALLBACK_URL is empty. -/
def defaultFallbackURL : Str := "http://redirect.name/".toList

/-- The fallback function of server.go: the redirect location it serves,
with the FALLBACK_URL environment value as a parameter. An empty
environment value selects the fixed default location; a non-empty reason is
query-escaped and appended as a fragment. -/
def fallbackLocation (envFallbackURL : Str) (reason : Str) : Str :=
  let location :=
    if envFallbackURL = [] then defaultFallbackURL else envFallbackURL
  if reason = [] then location
  else location ++ "#reason=".toList ++ queryEscape reason

/-- An HTTP redirect response as the handlers shape it: status code,
Location header, and an optional Cache-Control header. -/
structure HttpResponse where
  status : Nat
  location : Str
  cacheControl : Option Str
deriving Repr, DecidableEq

/-- The fallback function of server.go always serves a 302 redirect to the
fallback location and never sets a Cache-Control header. -/
def fallbackResponse (envFallbackURL reason : Str) : HttpResponse :=
  ⟨302, fallbackLocation envFallbackURL reason, none⟩

/-- The `_redirect.` label prepended to a hostname to form the TXT query
name. -/
def redirectLabel : Str := "_redirect.".toList

/-- The DNS query name built by redirectHandler in server.go: the Host
header is split on `:`, the first part is kept (dropping any port), and
`_redirect.` is prepended. -/
def dnsQueryName (host : Str) : Str :=
  redirectLabel ++ (goSplitChar ':' host).headD []

/-- The reason text redirectHandler hands to fallback when the TXT lookup
fails. -/
def couldNotResolveMsg (e : Str) : Str :=
  "Could not resolve hostname (".toList ++ e ++ ")".toList

/-- The Cache-Control header value attached to permanent redirects. -/
def cacheControlValue : Str := "max-age=86400".toList

/-- redirectHandler from server.go, with the TXT lookup and the
FALLBACK_URL environment value as parameters: DNS failure and resolver
failure fall back to a 302, and a resolved redirect is served with its own
status; a 301 additionally carries Cache-Control max-age=86400. -/
def redirectHandler (lookupTXT : Str → Except Str (List Str))
    (envFallbackURL : Str) (host : Str) (url : Str) : HttpResponse :=
  match lookupTXT (dnsQueryName host) with
  | .error e => fallbackResponse envFallbackURL (couldNotResolveMsg e)
  | .ok txt =>
    match getRedirect txt url with
    | .error e => fallbackResponse envFallbackURL e
    | .ok redirect =>
      { status := redirect.Status
        location := redirect.Location
        cacheControl :=
          if redirect.Status = 301 then some cacheControlValue else none }

/-- C4: whenever the handler serves a successfully resolved redirect, the
response carries Cache-Control max-age=86400 exactly when the resolved
status code is 301; any other resolved status, such as 308 or 302, carries
no Cache-Control header, and the response serves the resolved status and
location. -/
theorem redirectHandler_cacheControl (lookupTXT : Str → Except Str (List Str))
    (envFallbackURL host url : Str) (txt : List Str) (r : Redirect)
    (hlk : lookupTXT (dnsQueryName host) = .ok txt)
    (hr : getRedirect txt url = .ok r) :
    ((redirectHandler lookupTXT envFallbackURL host url).cacheControl =
        some cacheControlValue ↔ r.Status = 301) ∧
    (redirectHandler lookupTXT envFallbackURL host url).status = r.Status ∧
    (redirectHandler lookupTXT envFallbackURL host url).location = r.Location ∧
    (r.Status ≠ 301 →
      (redirectHandler lookupTXT envFallbackURL host url).cacheControl =
        none) := by
  by_cases h : r.Status = 301 <;>
    simp [redirectHandler, hlk, hr, h]

/-- C4 witness: a record resolving with status 308 is served without a
Cache-Control header. -/
theorem redirectHandler_cacheControl_witness :
    ((fun _ : Str =>
        (Except.ok ["Redirects to https://example.com/ with 308".toList] :
          Except Str (List Str))) (dnsQueryName "example.com".toList) =
      Except.ok ["Redirects to https://example.com/ with 308".toList]) ∧
    (getRedirect ["Redirects to https://example.com/ with 308".toList]
        "/".toList =
      Except.ok ⟨"https://example.com/".toList, 308⟩) ∧
    (((redirectHandler
          (fun _ : Str =>
            (Except.ok
              ["Redirects to https://example.com/ with 308".toList] :
              Except Str (List Str)))
          [] "example.com".toList "/".toList).cacheControl =
        some cacheControlValue ↔
        (Redirect.mk "https://example.com/".toList 308).Status = 301) ∧
      (redirectHandler
          (fun _ : Str =>
            (Except.ok
              ["Redirects to https://example.com/ with 308".toList] :
              Except Str (List Str)))
          [] "example.com".toList "/".toList).status =
        (Redirect.mk "https://example.com/".toList 308).Status ∧
      (redirectHandler
          (fun _ : Str =>
            (Except.ok
              ["Redirects to https://example.com/ with 308".toList] :
              Except Str (List Str)))
          [] "example.com".toList "/".toList).location =
        (Redirect.mk "https://example.com/".toList 308).Location ∧
      ((Redirect.mk "https://example.com/".toList 308).Status ≠ 301 →
        (redirectHandler
            (fun _ : Str =>
              (Except.ok
                ["Redirects to https://example.com/ with 308".toList] :
                Except Str (List Str)))
            [] "example.com".toList "/".toList).cacheControl = none)) :=
  ⟨rfl, rfl,
    redirectHandler_cacheControl
      (fun _ : Str =>
        (Except.ok ["Redirects to https://example.com/ with 308".toList] :
          Except Str (List Str)))
      [] "example.com".toList "/".toList
      ["Redirects to https://example.com/ with 308".toList]
      ⟨"https://example.com/".toList, 308⟩ rfl rfl⟩

lemma goSplitChar_head (sep : Char) (s : Str) :
    (goSplitChar sep s).headD [] = s.takeWhile (fun c => c != sep) := by
  induction s with
  | nil => rfl
  | cons c rest ih =>
    by_cases h : c = sep
    · simp [goSplitChar, h, List.takeWhile_cons]
    · cases hg : goSplitChar sep rest with
      | nil =>
        rw [hg] at ih
        simp [goSplitChar, h, hg, List.takeWhile_cons, ← ih]
      | cons s0 ss =>
        rw [hg] at ih
        simp [goSplitChar, h, hg, List.takeWhile_cons, ← ih]

lemma takeWhile_append_stop (p : Char → Bool) (l t : Str)
    (hl : ∀ c ∈ l, p c = true) (a : Char) (ha : p a = false) :
    (l ++ a :: t).takeWhile p = l ∧ l.takeWhile p = l := by
  induction l with
  | nil => simp [List.takeWhile_cons, ha]
  | cons c rest ih =>
    have hc : p c = true := hl c (by simp)
    have ih2 := ih fun x hx => hl x (by simp [hx])
    simp [List.takeWhile_cons, hc, ih2.1, ih2.2]

/-- C9: the handler's DNS query name is `_redirect.` followed by the Host
header's part before the first colon, so a host carrying a port issues the
same TXT query as the bare host does. -/
theorem dnsQueryName_strips_port (host portSuffix : Str) :
    dnsQueryName host =
      redirectLabel ++ host.takeWhile (fun c => c != ':') ∧
    ((∀ c ∈ host, c ≠ ':') →
      dnsQueryName (host ++ ':' :: portSuffix) = dnsQueryName host) := by
  constructor
  · rw [dnsQueryName, goSplitChar_head]
  · intro h
    have hall : ∀ c ∈ host, (fun c => c != ':') c = true := by
      intro c hc
      simpa using h c hc
    have hstop := takeWhile_append_stop (fun c => c != ':') host portSuffix
      hall ':' (by simp)
    rw [dnsQueryName, dnsQueryName, goSplitChar_head, goSplitChar_head,
      hstop.1, hstop.2]

/-- C9 witness: a request for host example.com:8080 issues the same TXT
query as one for example.com. -/
theorem dnsQueryName_strips_port_witness :
    (∀ c ∈ "example.com".toList, c ≠ ':') ∧
    dnsQueryName ("example.com".toList ++ ':' :: "8080".toList) =
      dnsQueryName "example.com".toList :=
  ⟨by decide,
    (dnsQueryName_strips_port "example.com".toList "8080".toList).2
      (by decide)⟩

/-- C10: with an empty FALLBACK_URL value the fallback location is the
fixed default `http://redirect.name/`; a non-empty reason is query-escaped
and appended as a `#reason=` fragment to whichever base location applies;
an empty reason leaves the base location without any fragment. -/
theorem fallbackLocation_spec (envFallbackURL reason : Str) :
    fallbackLocation [] reason =
      defaultFallbackURL ++
        (if reason = [] then []
          else "#reason=".toList ++ queryEscape reason) ∧
    (reason ≠ [] →
      fallbackLocation envFallbackURL reason =
        (if envFallbackURL = [] then defaultFallbackURL
          else envFallbackURL) ++ ("#reason=".toList ++ queryEscape reason)) ∧
    fallbackLocation envFallbackURL [] =
      (if envFallbackURL = [] then defaultFallbackURL else envFallbackURL) := by
  refine ⟨?_, ?_, ?_⟩
  · by_cases h : reason = [] <;> simp [fallbackLocation, h]
  · intro h
    simp [fallbackLocation, h]
  · simp [fallbackLocation]

/-- C10 witness: a concrete non-empty FALLBACK_URL and non-empty reason. -/
theorem fallbackLocation_spec_witness :
    ("no such host".toList ≠ ([] : Str)) ∧
    fallbackLocation "https://other.example/".toList "no such host".toList =
      (if "https://other.example/".toList = ([] : Str) then defaultFallbackURL
        else "https://other.example/".toList) ++
        ("#reason=".toList ++ queryEscape "no such host".toList) :=
  ⟨by decide,
    (fallbackLocation_spec "https://other.example/".toList
      "no such host".toList).2.1 (by decide)⟩

/-- The denial message of hostPolicy when no record parses. -/
def noValidConfigMsg (hostname : Str) : Str :=
  "no valid redirect config in TXT records for ".toList ++ hostname

/-- The denial message of hostPolicy when the TXT lookup fails. -/
def dnsFailedMsg (hostname e : Str) : Str :=
  "DNS lookup failed for ".toList ++ hostname ++ ": ".toList ++ e

/-- The record scan of hostPolicy in server.go: admission is granted on the
first record the rule parser accepts; translation is never attempted. -/
def hostPolicyScan (hostname : Str) : List Str → Except Str Unit
  | [] => .error (noValidConfigMsg hostname)
  | record :: rest =>
    if (Parse record).isSome then .ok () else hostPolicyScan hostname rest

/-- hostPolicy from server.go, with the TXT lookup as a parameter: the
query name is `_redirect.` prepended to the hostname, a failed lookup is a
denial, and otherwise admission is granted exactly when some record
parses. -/
def hostPolicy (lookupTXT : Str → Except Str (List Str)) (host : Str) :
    Except Str Unit :=
  let hostname := redirectLabel ++ host
  match lookupTXT hostname with
  | .error e => .error (dnsFailedMsg hostname e)
  | .ok txt => hostPolicyScan hostname txt

lemma hostPolicyScan_ok_iff (hostname : Str) (txt : List Str) :
    hostPolicyScan hostname txt = .ok () ↔
      ∃ record ∈ txt, (Parse record).isSome := by
  induction txt with
  | nil => simp [hostPolicyScan]
  | cons r rest ih =>
    by_cases h : (Parse r).isSome
    · simp [hostPolicyScan, h]
    · simp [hostPolicyScan, h, ih]

/-- C7: hostPolicy grants certificate admission exactly when the TXT lookup
for `_redirect.<hostname>` succeeds and at least one returned record parses
into a rule, scoped or catch-all, with no translation attempted; a failed
lookup is always a denial, and a successful lookup whose records all fail
to parse is always a denial. -/
theorem hostPolicy_ok_iff (lookupTXT : Str → Except Str (List Str))
    (host : Str) :
    hostPolicy lookupTXT host = .ok () ↔
      ∃ txt, lookupTXT (redirectLabel ++ host) = .ok txt ∧
        ∃ record ∈ txt, (Parse record).isSome := by
  unfold hostPolicy
  cases hlk : lookupTXT (redirectLabel ++ host) with
  | error e => simp [hlk]
  | ok txt => simp [hlk, hostPolicyScan_ok_iff]

/-- C7 witness: a stubbed lookup returning one catch-all record grants
admission for a concrete hostname. -/
theorem hostPolicy_ok_iff_witness :
    hostPolicy
      (fun _ : Str =>
        (Except.ok ["Redirects to https://example.com".toList] :
          Except Str (List Str)))
      "foo.example.com".toList = Except.ok () :=
  (hostPolicy_ok_iff
    (fun _ : Str =>
      (Except.ok ["Redirects to https://example.com".toList] :
        Except Str (List Str)))
    "foo.example.com".toList).mpr
    ⟨["Redirects to https://example.com".toList], rfl,
      "Redirects to https://example.com".toList, by simp, by decide⟩

/-- One week in nanoseconds, the duration 7 * 24 * time.Hour used by the
rate-limited cache. -/
def weekNanos : Nat := 7 * 24 * 60 * 60 * 1000000000

/-- time.Now().Truncate(7 * 24 * time.Hour): wall-clock time (nanoseconds
since the zero time) rounded down to a multiple of one week. -/
def weekTruncate (now : Nat) : Nat := now - now % weekNanos

/-- The in-memory state of rateLimitedCache: per-apex certificate counts
(a Go map, zero for absent keys) and the anchor of the week bucket the
counts belong to. -/
structure RLState where
  counts : Str → Nat
  weekOf : Nat

/-- The week-rollover step at the top of rateLimitedCache.Put: when the
current week bucket differs from the stored anchor, all counters are
cleared and the new bucket is adopted; otherwise the state is untouched. -/
def rollState (now : Nat) (st : RLState) : RLState :=
  if weekTruncate now = st.weekOf then st
  else { counts := fun _ => 0, weekOf := weekTruncate now }

/-- The observable outcome of one rateLimitedCache.Put call. -/
inductive PutResult where
  | ok : PutResult
  | rateLimited (apex : Str) : PutResult
  | storeFailed (e : Str) : PutResult
deriving Repr, DecidableEq

/-- One rateLimitedCache.Put call: its result, the state it leaves behind,
and whether the underlying store was invoked. -/
structure PutOutcome where
  result : PutResult
  state : RLState
  storeInvoked : Bool

/-- rateLimitedCache.Put from server.go. The apex derivation
(publicsuffix.EffectiveTLDPlusOne) and the underlying store
(autocert.DirCache) are external collaborators, passed as parameters:
`apexOf` returns none when derivation fails, and `storeErr` is the error
the underlying store would report if invoked. A non-domain key bypasses all
quota logic; otherwise the week rollover is applied, a counter at or above
2 fails without touching the store, and the counter is incremented only
after a successful delegation. -/
def rateLimitedPut (apexOf : Str → Option Str) (storeErr : Option Str)
    (now : Nat) (st : RLState) (key : Str) : PutOutcome :=
  match apexOf key with
  | none =>
    { result := match storeErr with | none => .ok | some e => .storeFailed e
      state := st
      storeInvoked := true }
  | some apex =>
    let st1 := rollState now st
    if st1.counts apex ≥ 2 then
      { result := .rateLimited apex, state := st1, storeInvoked := false }
    else
      match storeErr with
      | some e => { result := .storeFailed e, state := st1, storeInvoked := true }
      | none =>
        { result := .ok
          state :=
            { counts := fun k =>
                if k = apex then st1.counts apex + 1 else st1.counts k
              weekOf := st1.weekOf }
          storeInvoked := true }

lemma rollState_same (now : Nat) (st : RLState)
    (h : weekTruncate now = st.weekOf) : rollState now st = st := by
  simp [rollState, h]

lemma rateLimitedPut_ok_step (apexOf : Str → Option Str) (now : Nat)
    (st : RLState) (key a : Str) (ha : apexOf key = some a)
    (hw : weekTruncate now = st.weekOf) (hcnt : st.counts a < 2) :
    rateLimitedPut apexOf none now st key =
      ⟨.ok, ⟨fun k => if k = a then st.counts a + 1 else st.counts k,
        st.weekOf⟩, true⟩ := by
  simp [rateLimitedPut, ha, rollState_same now st hw, Nat.not_le.mpr hcnt]

lemma rateLimitedPut_limited_step (apexOf : Str → Option Str) (now : Nat)
    (st : RLState) (key a : Str) (se : Option Str)
    (ha : apexOf key = some a) (hw : weekTruncate now = st.weekOf)
    (hcnt : 2 ≤ st.counts a) :
    rateLimitedPut apexOf se now st key = ⟨.rateLimited a, st, false⟩ := by
  simp [rateLimitedPut, ha, rollState_same now st hw, hcnt]

/-- C2: for a fixed apex inside one week bucket, the first and second Put
whose keys derive to that apex delegate to the store and succeed, the third
fails rate-limited without invoking the store; a Put deriving to a
different apex sees the same outcome as from the initial state and its
counter is untouched; and a Put whose key is not domain-shaped bypasses all
quota logic, delegating directly whatever the counter state. -/
theorem rateLimitedPut_quota (apexOf : Str → Option Str) (a : Str)
    (st : RLState) (k1 k2 k3 : Str) (n1 n2 n3 : Nat)
    (h1 : apexOf k1 = some a) (h2 : apexOf k2 = some a)
    (h3 : apexOf k3 = some a)
    (hw1 : weekTruncate n1 = st.weekOf) (hw2 : weekTruncate n2 = st.weekOf)
    (hw3 : weekTruncate n3 = st.weekOf)
    (hc : st.counts a = 0) :
    ((rateLimitedPut apexOf none n1 st k1).result = .ok ∧
      (rateLimitedPut apexOf none n1 st k1).storeInvoked = true) ∧
    ((rateLimitedPut apexOf none n2
        (rateLimitedPut apexOf none n1 st k1).state k2).result = .ok ∧
      (rateLimitedPut apexOf none n2
        (rateLimitedPut apexOf none n1 st k1).state k2).storeInvoked = true) ∧
    ((rateLimitedPut apexOf none n3
        (rateLimitedPut apexOf none n2
          (rateLimitedPut apexOf none n1 st k1).state k2).state k3).result =
        .rateLimited a ∧
      (rateLimitedPut apexOf none n3
        (rateLimitedPut apexOf none n2
          (rateLimitedPut apexOf none n1 st k1).state k2).state
        k3).storeInvoked = false) ∧
    (∀ k b se, apexOf k = some b → b ≠ a →
      (rateLimitedPut apexOf se n3
          (rateLimitedPut apexOf none n2
            (rateLimitedPut apexOf none n1 st k1).state k2).state k).result =
        (rateLimitedPut apexOf se n3 st k).result ∧
      (rateLimitedPut apexOf none n2
          (rateLimitedPut apexOf none n1 st k1).state k2).state.counts b =
        st.counts b) ∧
    (∀ k se st2, apexOf k = none →
      rateLimitedPut apexOf se n3 st2 k =
        ⟨match se with | none => .ok | some e => .storeFailed e, st2, true⟩) := by
  set s1 : RLState :=
    ⟨fun k => if k = a then st.counts a + 1 else st.counts k, st.weekOf⟩
    with hs1
  set s2 : RLState :=
    ⟨fun k => if k = a then s1.counts a + 1 else s1.counts k, s1.weekOf⟩
    with hs2
  have hs1w : s1.weekOf = st.weekOf := rfl
  have hs2w : s2.weekOf = st.weekOf := rfl
  have hs1a : s1.counts a = st.counts a + 1 := by
    rw [hs1]
    simp
  have hs1b : ∀ b, b ≠ a → s1.counts b = st.counts b := by
    intro b hb
    rw [hs1]
    simp [hb]
  have hs2a : s2.counts a = 2 := by
    rw [hs2]
    simp [hs1a, hc]
  have e1 : rateLimitedPut apexOf none n1 st k1 = ⟨.ok, s1, true⟩ := by
    rw [hs1]
    exact rateLimitedPut_ok_step apexOf n1 st k1 a h1 hw1 (by omega)
  have e2 : rateLimitedPut apexOf none n2 s1 k2 = ⟨.ok, s2, true⟩ := by
    rw [hs2]
    exact rateLimitedPut_ok_step apexOf n2 s1 k2 a h2
      (hw2.trans hs1w.symm) (by omega)
  have e3 : rateLimitedPut apexOf none n3 s2 k3 = ⟨.rateLimited a, s2, false⟩ :=
    rateLimitedPut_limited_step apexOf n3 s2 k3 a none h3
      (hw3.trans hs2w.symm) (by omega)
  refine ⟨?_, ?_, ?_, ?_, ?_⟩
  · simp [e1]
  · simp [e1, e2]
  · simp [e1, e2, e3]
  · intro k b se hb hba
    have hsb : s2.counts b = st.counts b := by
      rw [hs2]
      simp [hba, hs1b b hba]
    constructor
    · simp only [e1, e2]
      simp only [rateLimitedPut, hb,
        rollState_same n3 s2 (hw3.trans hs2w.symm),
        rollState_same n3 st hw3, hsb]
      by_cases hcb : 2 ≤ st.counts b
      · simp [hcb]
      · cases se <;> simp [hcb]
    · simp only [e1, e2]
      simp [hba]
  · intro k se st2 hk
    simp [rateLimitedPut, hk]

/-- A concrete apex derivation map for exercising the quota theorem. -/
def quotaApexOf : Str → Option Str := fun k =>
  if k = "sub1.example.com".toList ∨ k = "sub2.example.com".toList ∨
      k = "sub3.example.com".toList then
    some "example.com".toList
  else if k = "sub1.other.org".toList then some "other.org".toList
  else none

/-- A fresh rate-limiter state anchored at the zero week with no counts. -/
def quotaState : RLState := ⟨fun _ => 0, 0⟩

/-- C2 witness: three Puts for subdomains of one apex from a fresh state in
one week bucket, exercising every hypothesis of the quota theorem at
concrete inputs. -/
theorem rateLimitedPut_quota_witness :
    (quotaApexOf "sub1.example.com".toList = some "example.com".toList ∧
      quotaApexOf "sub2.example.com".toList = some "example.com".toList ∧
      quotaApexOf "sub3.example.com".toList = some "example.com".toList ∧
      weekTruncate 0 = quotaState.weekOf ∧
      quotaState.counts "example.com".toList = 0) ∧
    (((rateLimitedPut quotaApexOf none 0 quotaState
          "sub1.example.com".toList).result = .ok ∧
        (rateLimitedPut quotaApexOf none 0 quotaState
          "sub1.example.com".toList).storeInvoked = true) ∧
      ((rateLimitedPut quotaApexOf none 0
          (rateLimitedPut quotaApexOf none 0 quotaState
            "sub1.example.com".toList).state
          "sub2.example.com".toList).result = .ok ∧
        (rateLimitedPut quotaApexOf none 0
          (rateLimitedPut quotaApexOf none 0 quotaState
            "sub1.example.com".toList).state
          "sub2.example.com".toList).storeInvoked = true) ∧
      ((rateLimitedPut quotaApexOf none 0
          (rateLimitedPut quotaApexOf none 0
            (rateLimitedPut quotaApexOf none 0 quotaState
              "sub1.example.com".toList).state
            "sub2.example.com".toList).state
          "sub3.example.com".toList).result =
          .rateLimited "example.com".toList ∧
        (rateLimitedPut quotaApexOf none 0
          (rateLimitedPut quotaApexOf none 0
            (rateLimitedPut quotaApexOf none 0 quotaState
              "sub1.example.com".toList).state
            "sub2.example.com".toList).state
          "sub3.example.com".toList).storeInvoked = false) ∧
      (∀ k b se, quotaApexOf k = some b → b ≠ "example.com".toList →
        (rateLimitedPut quotaApexOf se 0
            (rateLimitedPut quotaApexOf none 0
              (rateLimitedPut quotaApexOf none 0 quotaState
                "sub1.example.com".toList).state
              "sub2.example.com".toList).state k).result =
          (rateLimitedPut quotaApexOf se 0 quotaState k).result ∧
        (rateLimitedPut quotaApexOf none 0
            (rateLimitedPut quotaApexOf none 0 quotaState
              "sub1.example.com".toList).state
            "sub2.example.com".toList).state.counts b =
          quotaState.counts b) ∧
      (∀ k se st2, quotaApexOf k = none →
        rateLimitedPut quotaApexOf se 0 st2 k =
          ⟨match se with | none => .ok | some e => .storeFailed e,
            st2, true⟩)) :=
  ⟨⟨by decide, by decide, by decide, by decide, rfl⟩,
    rateLimitedPut_quota quotaApexOf "example.com".toList quotaState
      "sub1.example.com".toList "sub2.example.com".toList
      "sub3.example.com".toList 0 0 0
      (by decide) (by decide) (by decide) (by decide) (by decide) (by decide)
      rfl⟩

/-- C5: when the underlying store fails on a domain-shaped key whose apex
is under quota, the rate-limited store propagates that error unchanged, the
store was invoked, and the state it leaves is exactly the rolled state: the
apex counter is not incremented, so a failed store operation never consumes
quota. -/
theorem rateLimitedPut_storeFailure (apexOf : Str → Option Str) (e : Str)
    (now : Nat) (st : RLState) (key a : Str)
    (ha : apexOf key = some a) (hcnt : (rollState now st).counts a < 2) :
    rateLimitedPut apexOf (some e) now st key =
      ⟨.storeFailed e, rollState now st, true⟩ := by
  simp [rateLimitedPut, ha, Nat.not_le.mpr hcnt]

/-- C5 witness: a concrete failing store Put for a domain key leaves the
state untouched and surfaces the store error. -/
theorem rateLimitedPut_storeFailure_witness :
    ((fun _ : Str => some "example.com".toList) "a.example.com".toList =
      some "example.com".toList ∧
      (rollState 0 quotaState).counts "example.com".toList < 2) ∧
    rateLimitedPut (fun _ : Str => some "example.com".toList)
        (some "disk full".toList) 0 quotaState "a.example.com".toList =
      ⟨.storeFailed "disk full".toList, rollState 0 quotaState, true⟩ :=
  ⟨⟨rfl, by decide⟩,
    rateLimitedPut_storeFailure (fun _ : Str => some "example.com".toList)
      "disk full".toList 0 quotaState "a.example.com".toList
      "example.com".toList rfl (by decide)⟩

/-- C6: the week bucket is the fixed 7-day truncation of wall-clock time;
on a Put for a domain-shaped key when the current bucket differs from the
stored anchor, every apex counter is cleared (not just the touched one) and
the new bucket is adopted, so an apex whose quota was exhausted in a
previous bucket succeeds again on two subsequent Puts. -/
theorem rateLimitedPut_weekRollover (apexOf : Str → Option Str) (now : Nat)
    (st : RLState) (key a : Str) (ha : apexOf key = some a)
    (hw : weekTruncate now ≠ st.weekOf) (hex : 2 ≤ st.counts a) :
    weekTruncate now = now - now % weekNanos ∧
    (∀ b, (rollState now st).counts b = 0) ∧
    (rollState now st).weekOf = weekTruncate now ∧
    (rateLimitedPut apexOf none now st key).result = .ok ∧
    (rateLimitedPut apexOf none now st key).state.weekOf = weekTruncate now ∧
    (rateLimitedPut apexOf none now
      (rateLimitedPut apexOf none now st key).state key).result = .ok := by
  have hroll : rollState now st = ⟨fun _ => 0, weekTruncate now⟩ := by
    simp [rollState, hw]
  have e1 : rateLimitedPut apexOf none now st key =
      ⟨.ok, ⟨fun k => if k = a then 1 else 0, weekTruncate now⟩, true⟩ := by
    simp [rateLimitedPut, ha, hroll]
  refine ⟨rfl, ?_, ?_, ?_, ?_, ?_⟩
  · intro b
    rw [hroll]
  · rw [hroll]
  · simp [e1]
  · simp [e1]
  · simp only [e1]
    rw [rateLimitedPut_ok_step apexOf now _ key a ha rfl (by simp)]

/-- C6 witness: an apex exhausted in the zero week bucket is admitted twice
again once the clock has crossed into the next bucket. -/
theorem rateLimitedPut_weekRollover_witness :
    ((fun _ : Str => some "example.com".toList) "a.example.com".toList =
      some "example.com".toList ∧
      weekTruncate weekNanos ≠ (RLState.mk (fun _ => 2) 0).weekOf ∧
      2 ≤ (RLState.mk (fun _ => 2) 0).counts "example.com".toList) ∧
    (weekTruncate weekNanos = weekNanos - weekNanos % weekNanos ∧
      (∀ b, (rollState weekNanos (RLState.mk (fun _ => 2) 0)).counts b = 0) ∧
      (rollState weekNanos (RLState.mk (fun _ => 2) 0)).weekOf =
        weekTruncate weekNanos ∧
      (rateLimitedPut (fun _ : Str => some "example.com".toList) none
        weekNanos (RLState.mk (fun _ => 2) 0)
        "a.example.com".toList).result = .ok ∧
      (rateLimitedPut (fun _ : Str => some "example.com".toList) none
        weekNanos (RLState.mk (fun _ => 2) 0)
        "a.example.com".toList).state.weekOf = weekTruncate weekNanos ∧
      (rateLimitedPut (fun _ : Str => some "example.com".toList) none
        weekNanos
        (rateLimitedPut (fun _ : Str => some "example.com".toList) none
          weekNanos (RLState.mk (fun _ => 2) 0)
          "a.example.com".toList).state
        "a.example.com".toList).result = .ok) :=
  ⟨⟨rfl, by decide, by decide⟩,
    rateLimitedPut_weekRollover (fun _ : Str => some "example.com".toList)
      weekNanos (RLState.mk (fun _ => 2) 0) "a.example.com".toList
      "example.com".toList rfl (by decide) (by decide)⟩
